import Mathlib

/-!
Verification of the bot-logger record store, reconciler and query engine.

This development shallowly embeds the pure core of `src/index.js` (the first
full variant in the repository): the JSON record store (`loadDB`/`saveDB`),
the intake append (`recordIntakeAndLinkMessage`), the identity-submission
merge with device-id propagation (`upsertUsernameFromModal`), the search
filter (`filterRecords`), and the display truncation (`truncateList`).

Modelling conventions:
* JavaScript strings are Lean `String`s; `trim`/`toLowerCase` are modelled
  over the underlying character list for ASCII (the repo only manipulates
  ASCII identifiers, message ids and field names).
* `undefined`/`null` arguments are `Option String` (`none`); the JS helper
  `norm = (s) => (s ?? '').toString().trim()` becomes `norm : Option String → String`.
* A JS object used as a string-keyed map (`db.messageIndex`) is an
  association list `List (String × α)`; property assignment replaces the
  value in place for an existing key and appends for a fresh key, exactly
  as JS property update does with respect to key enumeration order.
* Stateful functions take and return the store explicitly.  A code path
  that would raise a `TypeError` (and therefore never reach `saveDB`, so
  the durable store is unchanged) is modelled by an `Option`/`Except`
  result.
-/

/-- ASCII whitespace recognised by the model of `String.prototype.trim`. -/
def isWsChar (c : Char) : Bool :=
  c = ' ' || c = '\t' || c = '\n' || c = '\r'

/-- Model of `s.trim()`: drop whitespace from both ends. -/
def trimM (s : String) : String :=
  ⟨(((s.data.dropWhile isWsChar).reverse.dropWhile isWsChar).reverse)⟩

/-- Model of `s.toLowerCase()` (ASCII). -/
def toLowerM (s : String) : String :=
  ⟨s.data.map Char.toLower⟩

/-- Model of `hay.includes(needle)`: substring containment. -/
def strIncludes (hay needle : String) : Bool :=
  decide (needle.data <:+: hay.data)

/-- The source's `norm = (s) => (s ?? '').toString().trim()`. -/
def norm (s : Option String) : String :=
  trimM (s.getD "")

/-- One stored intake event, as built by `recordIntakeAndLinkMessage` and
later enriched in place by `upsertUsernameFromModal`.  `username` and
`discordId` are absent (`none`) until a form submission sets them. -/
structure Record where
  ts : String
  deviceUser : String
  deviceId : String
  country : String
  region : String
  messageId : String
  username : Option String
  discordId : Option String
deriving DecidableEq, Repr

/-- The JSON store `{records, messageIndex}`. -/
structure DB where
  records : List Record
  messageIndex : List (String × Nat)
deriving DecidableEq, Repr

def emptyDB : DB := { records := [], messageIndex := [] }

/-- Association-list lookup, modelling JS property read `obj[k]`
(`none` = `undefined`). -/
def lookupKey {α : Type} (l : List (String × α)) (k : String) : Option α :=
  match l with
  | [] => none
  | (k', v) :: rest => if k' = k then some v else lookupKey rest k

/-- Association-list update, modelling JS property write `obj[k] = v`:
an existing key keeps its position, a fresh key is appended. -/
def setKey {α : Type} (l : List (String × α)) (k : String) (v : α) :
    List (String × α) :=
  match l with
  | [] => [(k, v)]
  | (k', v') :: rest =>
    if k' = k then (k, v) :: rest else (k', v') :: setKey rest k v

/-- The raw intake request body fields used by the embed path of
`POST /intake` (each may be absent). -/
structure IntakePayload where
  deviceUser : Option String
  deviceId : Option String
  country : Option String
  region : Option String
deriving DecidableEq, Repr

/-- Model of `recordIntakeAndLinkMessage(payload, messageId)`: build the normalised
record, push it, and if `messageId` is truthy (a non-empty string) insert
`messageId -> records.length - 1` into the index.  The creation instant
`new Date().toISOString()` is passed in as `ts`. -/
def recordIntakeAndLinkMessage (db : DB) (ts : String)
    (payload : IntakePayload) (messageId : String) : DB × Record :=
  let r0 : Record :=
    { ts := ts
      deviceUser := norm payload.deviceUser
      deviceId := norm payload.deviceId
      country := norm payload.country
      region := norm payload.region
      messageId := norm (some messageId)
      username := none
      discordId := none }
  let records := db.records ++ [r0]
  let messageIndex :=
    if messageId ≠ "" then setKey db.messageIndex messageId (records.length - 1)
    else db.messageIndex
  ({ records := records, messageIndex := messageIndex }, r0)

/-- Set the submitted identity fields on one record, as the two
`if (uname) ... if (discordId) ...` statements do. -/
def setIdentity (uname discordId : String) (r : Record) : Record :=
  let r1 := if uname ≠ "" then { r with username := some uname } else r
  if discordId ≠ "" then { r1 with discordId := some discordId } else r1

/-- Model of `upsertUsernameFromModal(messageId, username, discordIdOpt)`.
When the card reference is not indexed the early `return` leaves the store
unchanged (result `some db`).  The result is `none` only when the index
entry points outside the record array: there the JS dereference
`base.deviceId` throws a `TypeError` before any save, so the durable
store is unchanged on that path too. -/
def upsertUsernameFromModal (db : DB) (messageId : String)
    (username discordIdOpt : Option String) : Option DB :=
  match lookupKey db.messageIndex messageId with
  | none => some db
  | some idx =>
    match db.records[idx]? with
    | none => none
    | some base =>
      let deviceId := base.deviceId
      let uname := norm username
      let discordId := norm discordIdOpt
      let recs1 := db.records.set idx (setIdentity uname discordId base)
      let recs2 := recs1.map fun r =>
        if r.deviceId ≠ "" ∧ r.deviceId = deviceId then
          setIdentity uname discordId r
        else r
      some { db with records := recs2 }

/-- Model of `filterRecords(db, field, value)`: dispatch on the lower-cased field
name; every branch is case-insensitive substring containment of the
trimmed query against the trimmed candidate field(s). -/
def filterRecords (db : DB) (field value : String) : List Record :=
  let needle := toLowerM (norm (some value))
  let fieldLower := toLowerM field
  db.records.filter fun r =>
    let u := toLowerM (norm r.username)
    let du := toLowerM (norm (some r.deviceUser))
    let di := toLowerM (norm (some r.deviceId))
    let inLoc := strIncludes (toLowerM (norm (some r.region))) needle ||
                 strIncludes (toLowerM (norm (some r.country))) needle
    if fieldLower = "username" then strIncludes u needle
    else if fieldLower = "deviceid" then strIncludes di needle
    else if fieldLower = "deviceuser" then strIncludes du needle
    else if fieldLower = "location" then inLoc
    else strIncludes u needle || strIncludes du needle ||
         strIncludes di needle || inLoc

/-- Model of `truncateList(arr, max = 10)`. -/
def truncateList (arr : List String) (maxN : Nat := 10) : List String :=
  if arr.length ≤ maxN then arr
  else
    let more := arr.length - maxN
    arr.take maxN ++ ["… (+" ++ toString more ++ " more)"]

/-- Fold a list of `(ts, payload, messageId)` intake calls over the empty
store: the stores reachable by `append` operations alone. -/
def appendMany (xs : List (String × IntakePayload × String)) : DB :=
  xs.foldl (fun db x => (recordIntakeAndLinkMessage db x.1 x.2.1 x.2.2).1) emptyDB

/-- The `POST /intake` handler's store-relevant behaviour: the `logtext`
mode never touches the store; otherwise raw-truthiness validation of
`deviceUser`/`deviceId` (`if (!deviceUser || !deviceId)` → 400), then the
append.  401/500 paths and the outbound card send are external I/O. -/
def postIntake (db : DB) (ts : String) (body : IntakePayload)
    (mode : Option String) (messageId : String) : Except Nat DB :=
  if toLowerM (mode.getD "") = "logtext" then .ok db
  else if ¬ ((body.deviceUser.getD "") ≠ "" ∧ (body.deviceId.getD "") ≠ "") then
    .error 400
  else .ok (recordIntakeAndLinkMessage db ts body messageId).1

/-!
The durable JSON blob: `loadDB` / `saveDB`.

`saveDB` writes `JSON.stringify(db, null, 2)`; `loadDB` reads the file,
substitutes `'{}'` for an empty string, `JSON.parse`s it inside a
`try`/`catch`, and default-fills `records`/`messageIndex` when falsy.
We model JSON documents by an AST and `JSON.parse` by a total fuel-based
recursive-descent parser over the character list (JSON integer literals
only: fractional/exponent literals and surrogate-pair combining are left
out of the model, as the store only ever contains strings and array
indices).  `JSON.parse ∘ JSON.stringify` is the identity on such values,
so the serialize-then-deserialize round trip is stated on the AST.
-/

inductive Json where
  | null
  | bool (b : Bool)
  | num (n : Int)
  | str (s : String)
  | arr (items : List Json)
  | obj (fields : List (String × Json))
deriving Repr

def skipWs (cs : List Char) : List Char := cs.dropWhile isWsChar

def hexDigit? (c : Char) : Option Nat :=
  if '0' ≤ c ∧ c ≤ '9' then some (c.toNat - '0'.toNat)
  else if 'a' ≤ c ∧ c ≤ 'f' then some (c.toNat - 'a'.toNat + 10)
  else if 'A' ≤ c ∧ c ≤ 'F' then some (c.toNat - 'A'.toNat + 10)
  else none

/-- Body of a JSON string literal after the opening quote, with the
standard escapes. -/
def parseStrBody (fuel : Nat) (cs : List Char) (acc : List Char) :
    Option (String × List Char) :=
  match fuel with
  | 0 => none
  | f + 1 =>
    match cs with
    | [] => none
    | '"' :: rest => some (⟨acc.reverse⟩, rest)
    | '\\' :: e :: rest =>
      match e with
      | '"' => parseStrBody f rest ('"' :: acc)
      | '\\' => parseStrBody f rest ('\\' :: acc)
      | '/' => parseStrBody f rest ('/' :: acc)
      | 'b' => parseStrBody f rest ('\x08' :: acc)
      | 'f' => parseStrBody f rest ('\x0c' :: acc)
      | 'n' => parseStrBody f rest ('\n' :: acc)
      | 'r' => parseStrBody f rest ('\r' :: acc)
      | 't' => parseStrBody f rest ('\t' :: acc)
      | 'u' =>
        match rest with
        | a :: b :: c :: d :: rest' =>
          match hexDigit? a, hexDigit? b, hexDigit? c, hexDigit? d with
          | some x, some y, some z, some w =>
            parseStrBody f rest'
              (Char.ofNat (((x * 16 + y) * 16 + z) * 16 + w) :: acc)
          | _, _, _, _ => none
        | _ => none
      | _ => none
    | c :: rest =>
      if c.toNat < 32 then none else parseStrBody f rest (c :: acc)

def isDigitChar (c : Char) : Bool := '0' ≤ c && c ≤ '9'

def digitsToNat (ds : List Char) : Nat :=
  ds.foldl (fun n c => n * 10 + (c.toNat - '0'.toNat)) 0

/-- JSON integer literal: optional minus, no leading zeros; a following
`.`/`e`/`E` (fractional or exponent form) is outside the model and makes
the parse fail. -/
def parseNum (cs : List Char) : Option (Json × List Char) :=
  let (neg, cs1) := match cs with
    | '-' :: r => (true, r)
    | _ => (false, cs)
  match cs1 with
  | [] => none
  | c :: _ =>
    if isDigitChar c then
      let ds := cs1.takeWhile isDigitChar
      let rest := cs1.dropWhile isDigitChar
      if 1 < ds.length ∧ ds.headD '0' = '0' then none
      else
        match rest with
        | e :: _ =>
          if e = '.' ∨ e = 'e' ∨ e = 'E' then none
          else
            let n : Int := digitsToNat ds
            some (.num (if neg then -n else n), rest)
        | [] =>
          let n : Int := digitsToNat ds
          some (.num (if neg then -n else n), [])
    else none

def eraseKey {α : Type} (l : List (String × α)) (k : String) :
    List (String × α) :=
  match l with
  | [] => []
  | (k', v) :: rest =>
    if k' = k then eraseKey rest k else (k', v) :: eraseKey rest k

/-- Combine an object member with the already-parsed later members,
with `JSON.parse`'s duplicate-key rule: position of the first
occurrence, value of the last. -/
def insMember (k : String) (v : Json) (ms : List (String × Json)) :
    List (String × Json) :=
  match lookupKey ms k with
  | some v' => (k, v') :: eraseKey ms k
  | none => (k, v) :: ms

inductive PMode where
  | val
  | arrItems
  | objItems

/-- Recursive-descent core: a JSON value, the members of a non-empty
array, or the members of a non-empty object. -/
def parseCore (fuel : Nat) (m : PMode) (cs : List Char) :
    Option (Json × List Char) :=
  match fuel with
  | 0 => none
  | f + 1 =>
    match m with
    | .val =>
      match cs with
      | 'n' :: 'u' :: 'l' :: 'l' :: r => some (.null, r)
      | 't' :: 'r' :: 'u' :: 'e' :: r => some (.bool true, r)
      | 'f' :: 'a' :: 'l' :: 's' :: 'e' :: r => some (.bool false, r)
      | '"' :: r =>
        match parseStrBody (r.length + 1) r [] with
        | some (s, rest) => some (.str s, rest)
        | none => none
      | '[' :: r =>
        match skipWs r with
        | ']' :: r2 => some (.arr [], r2)
        | r2 => parseCore f .arrItems r2
      | '\x7b' :: r =>
        match skipWs r with
        | '\x7d' :: r2 => some (.obj [], r2)
        | r2 => parseCore f .objItems r2
      | _ => parseNum cs
    | .arrItems =>
      match parseCore f .val cs with
      | none => none
      | some (v, r) =>
        match skipWs r with
        | ',' :: r2 =>
          match parseCore f .arrItems (skipWs r2) with
          | some (.arr vs, r3) => some (.arr (v :: vs), r3)
          | _ => none
        | ']' :: r2 => some (.arr [v], r2)
        | _ => none
    | .objItems =>
      match cs with
      | '"' :: r =>
        match parseStrBody (r.length + 1) r [] with
        | none => none
        | some (k, r1) =>
          match skipWs r1 with
          | ':' :: r2 =>
            match parseCore f .val (skipWs r2) with
            | none => none
            | some (v, r3) =>
              match skipWs r3 with
              | ',' :: r4 =>
                match parseCore f .objItems (skipWs r4) with
                | some (.obj ms, r5) => some (.obj (insMember k v ms), r5)
                | _ => none
              | '\x7d' :: r4 => some (.obj [(k, v)], r4)
              | _ => none
          | _ => none
      | _ => none

/-- Model of `JSON.parse`: whole input must be consumed up to trailing
whitespace. -/
def jsonParse (s : String) : Option Json :=
  match parseCore (s.data.length * 2 + 8) .val (skipWs s.data) with
  | some (v, rest) => if skipWs rest = [] then some v else none
  | none => none

/-- JS truthiness of a JSON value. -/
def jsTruthy : Json → Bool
  | .null => false
  | .bool b => b
  | .num n => n != 0
  | .str s => s != ""
  | .arr _ => true
  | .obj _ => true

/-- JS truthiness of a property read (`undefined` is falsy). -/
def jsTruthyO : Option Json → Bool
  | none => false
  | some v => jsTruthy v

def getField (v : Json) (k : String) : Option Json :=
  match v with
  | .obj fs => lookupKey fs k
  | _ => none

/-- The object literal `{records: [], messageIndex: {}}`. -/
def emptyStoreJson : Json :=
  .obj [("records", .arr []), ("messageIndex", .obj [])]

/-- Model of `if (!parsed.k) parsed.k = d` on an object's member list. -/
def defaultField (fs : List (String × Json)) (k : String) (d : Json) :
    List (String × Json) :=
  match lookupKey fs k with
  | some v => if jsTruthy v then fs else setKey fs k d
  | none => setKey fs k d

/-- The body of `loadDB` after a successful parse: default-fill
`records` then `messageIndex`.  On a primitive parse result the strict-mode
property assignment throws and the `catch` returns the empty store. -/
def loadFromJson (v : Json) : Json :=
  match v with
  | .obj fs =>
    .obj (defaultField (defaultField fs "records" (.arr []))
            "messageIndex" (.obj []))
  | _ => emptyStoreJson

/-- Model of `loadDB` on raw file contents: `JSON.parse(raw || '{}')` with the
`catch` fallback, then default-filling. -/
def loadDB (raw : String) : Json :=
  match jsonParse (if raw = "" then "\x7b\x7d" else raw) with
  | some v => loadFromJson v
  | none => emptyStoreJson

/-- Image under `JSON.stringify` of one record: the six creation-time keys in
insertion order, then the enrichment keys when present. -/
def encodeRecord (r : Record) : Json :=
  .obj
    ([("ts", .str r.ts), ("deviceUser", .str r.deviceUser),
      ("deviceId", .str r.deviceId), ("country", .str r.country),
      ("region", .str r.region), ("messageId", .str r.messageId)]
     ++ (match r.username with
         | some u => [("username", Json.str u)]
         | none => [])
     ++ (match r.discordId with
         | some d => [("discordId", Json.str d)]
         | none => []))

/-- Image under `JSON.stringify` of the whole store. -/
def encodeDB (db : DB) : Json :=
  .obj [("records", .arr (db.records.map encodeRecord)),
        ("messageIndex",
         .obj (db.messageIndex.map fun e => (e.1, Json.num (e.2 : Int))))]

def asStr : Json → Option String
  | .str s => some s
  | _ => none

def asNat : Json → Option Nat
  | .num n => if n < 0 then none else some n.toNat
  | _ => none

/-- Read one record back out of its JSON object. -/
def decodeRecord (v : Json) : Option Record :=
  match v with
  | .obj fs => do
    let ts ← lookupKey fs "ts" >>= asStr
    let du ← lookupKey fs "deviceUser" >>= asStr
    let di ← lookupKey fs "deviceId" >>= asStr
    let co ← lookupKey fs "country" >>= asStr
    let re ← lookupKey fs "region" >>= asStr
    let mi ← lookupKey fs "messageId" >>= asStr
    let un := lookupKey fs "username" >>= asStr
    let dc := lookupKey fs "discordId" >>= asStr
    some ⟨ts, du, di, co, re, mi, un, dc⟩
  | _ => none

/-- Decode a list of record objects. -/
def decodeRecords (ds : List Json) : Option (List Record) :=
  match ds with
  | [] => some []
  | d :: rest => do
    let r ← decodeRecord d
    let rs ← decodeRecords rest
    some (r :: rs)

/-- Decode the message-index object members. -/
def decodeIndex (ms : List (String × Json)) : Option (List (String × Nat)) :=
  match ms with
  | [] => some []
  | e :: rest => do
    let n ← asNat e.2
    let ns ← decodeIndex rest
    some ((e.1, n) :: ns)

/-- Read the whole store back out of its JSON value. -/
def decodeDB (v : Json) : Option DB :=
  match v with
  | .obj fs => do
    let recsJ ← lookupKey fs "records"
    let recs ← (match recsJ with
      | Json.arr items => decodeRecords items
      | _ => none)
    let idxJ ← lookupKey fs "messageIndex"
    let idx ← (match idxJ with
      | Json.obj ms => decodeIndex ms
      | _ => none)
    some ⟨recs, idx⟩
  | _ => none

/-!
Helper lemmas.
-/

theorem strIncludes_iff (hay needle : String) :
    strIncludes hay needle = true ↔ needle.data <:+: hay.data := by
  simp [strIncludes]

theorem strIncludes_empty_needle (hay : String) :
    strIncludes hay "" = true := by
  rw [strIncludes_iff]
  exact List.nil_infix

theorem lookupKey_setKey_self {α : Type} (l : List (String × α)) (k : String)
    (v : α) : lookupKey (setKey l k v) k = some v := by
  induction l with
  | nil => simp [setKey, lookupKey]
  | cons e rest ih =>
    obtain ⟨k', v'⟩ := e
    by_cases h : k' = k
    · simp [setKey, lookupKey, h]
    · simp [setKey, lookupKey, h, ih]

theorem lookupKey_setKey_ne {α : Type} (l : List (String × α)) (k k' : String)
    (v : α) (h : k' ≠ k) : lookupKey (setKey l k v) k' = lookupKey l k' := by
  induction l with
  | nil => simp [setKey, lookupKey, Ne.symm h]
  | cons e rest ih =>
    obtain ⟨k'', v''⟩ := e
    by_cases hk : k'' = k
    · subst hk
      simp [setKey, lookupKey, Ne.symm h]
    · simp [setKey, lookupKey, hk, ih]

theorem mem_setKey {α : Type} {l : List (String × α)} {k : String} {v : α}
    {e : String × α} (h : e ∈ setKey l k v) : e ∈ l ∨ e = (k, v) := by
  induction l with
  | nil => simpa [setKey] using h
  | cons e' rest ih =>
    obtain ⟨k', v'⟩ := e'
    by_cases hk : k' = k
    · simp only [setKey, if_pos hk, List.mem_cons] at h
      rcases h with h | h
      · exact Or.inr h
      · exact Or.inl (List.mem_cons_of_mem _ h)
    · simp only [setKey, if_neg hk, List.mem_cons] at h
      rcases h with h | h
      · exact Or.inl (by simp [h])
      · rcases ih h with h' | h'
        · exact Or.inl (List.mem_cons_of_mem _ h')
        · exact Or.inr h'

theorem keys_setKey_subset {α : Type} {l : List (String × α)} {k : String}
    {v : α} {m : String} (h : m ∈ (setKey l k v).map Prod.fst) :
    m ∈ l.map Prod.fst ∨ m = k := by
  rcases List.mem_map.mp h with ⟨e, he, hm⟩
  rcases mem_setKey he with h' | h'
  · exact Or.inl (List.mem_map.mpr ⟨e, h', hm⟩)
  · subst h'
    exact Or.inr hm.symm

theorem nodup_keys_setKey {α : Type} (l : List (String × α)) (k : String)
    (v : α) (h : (l.map Prod.fst).Nodup) :
    ((setKey l k v).map Prod.fst).Nodup := by
  induction l with
  | nil => simp [setKey]
  | cons e rest ih =>
    obtain ⟨k', v'⟩ := e
    simp only [List.map_cons, List.nodup_cons] at h
    by_cases hk : k' = k
    · subst hk
      simpa [setKey, List.nodup_cons] using h
    · simp only [setKey, if_neg hk, List.map_cons, List.nodup_cons]
      refine ⟨fun hm => ?_, ih h.2⟩
      rcases keys_setKey_subset hm with h' | h'
      · exact h.1 h'
      · exact hk h'

theorem list_set_self {β : Type} (l : List β) (i : Nat) (b : β)
    (h : l[i]? = some b) : l.set i b = l := by
  induction l generalizing i with
  | nil => simp at h
  | cons a rest ih =>
    cases i with
    | zero =>
      simp only [List.getElem?_cons_zero, Option.some.injEq] at h
      simp [h]
    | succ n =>
      simp only [List.getElem?_cons_succ] at h
      simp [List.set, ih n h]

/-- The creation-time fields of a record, which identity submissions must
never touch. -/
def frameFields (r : Record) :
    String × String × String × String × String × String :=
  (r.ts, r.deviceUser, r.deviceId, r.country, r.region, r.messageId)

theorem frameFields_setIdentity (u d : String) (r : Record) :
    frameFields (setIdentity u d r) = frameFields r := by
  unfold setIdentity frameFields
  split <;> split <;> rfl

theorem setIdentity_deviceId (u d : String) (r : Record) :
    (setIdentity u d r).deviceId = r.deviceId := by
  unfold setIdentity
  split <;> split <;> rfl

theorem setIdentity_username {u : String} (d : String) (r : Record)
    (hu : u ≠ "") : (setIdentity u d r).username = some u := by
  unfold setIdentity
  simp only [if_pos hu]
  split <;> rfl

theorem setIdentity_discordId (u : String) {d : String} (r : Record)
    (hd : d ≠ "") : (setIdentity u d r).discordId = some d := by
  unfold setIdentity
  simp only [if_pos hd]

/-!
Claim theorems.
-/

/-- Claim C8 (confirmed): `truncateList` returns the list unchanged when its
length is at most the maximum, and otherwise returns exactly the first
`maxN` entries followed by one marker entry stating the omitted count
`total_count - max_count`. -/
theorem truncateList_marker (arr : List String) (maxN : Nat) :
    (arr.length ≤ maxN → truncateList arr maxN = arr) ∧
    (maxN < arr.length →
      truncateList arr maxN =
        arr.take maxN ++ ["… (+" ++ toString (arr.length - maxN) ++ " more)"] ∧
      (truncateList arr maxN).length = maxN + 1 ∧
      (truncateList arr maxN).take maxN = arr.take maxN) := by
  constructor
  · intro h
    simp [truncateList, h]
  · intro h
    have hnle : ¬ arr.length ≤ maxN := not_le.mpr h
    refine ⟨by simp [truncateList, hnle], ?_, ?_⟩
    · simp [truncateList, hnle, List.length_take, Nat.min_eq_left (le_of_lt h)]
    · simp only [truncateList, if_neg hnle]
      exact List.take_left' (by simp [List.length_take, Nat.min_eq_left (le_of_lt h)])

/-- Witness for C8: 13 distinct device ids under a maximum of 10 yield the
10 first entries plus the marker entry "… (+3 more)". -/
theorem truncateList_marker_witness :
    truncateList ["d1", "d2", "d3", "d4", "d5", "d6", "d7", "d8", "d9", "d10",
        "d11", "d12", "d13"] 10 =
      ["d1", "d2", "d3", "d4", "d5", "d6", "d7", "d8", "d9", "d10",
       "… (+3 more)"] ∧
    truncateList ["d1", "d2"] 10 = ["d1", "d2"] :=
  ⟨((truncateList_marker _ 10).2 (by decide)).1.trans (by decide),
   (truncateList_marker _ 10).1 (by decide)⟩

/-- Claim C2 (confirmed): searching with field `deviceId` returns exactly the
records whose trimmed `deviceId` case-insensitively contains the trimmed
query value, as a filter of the stored sequence (hence in the original
insertion order, witnessed by the `Sublist` conjunct). -/
theorem filterRecords_deviceId_correct (db : DB) (value : String) :
    filterRecords db "deviceId" value =
      db.records.filter (fun r =>
        strIncludes (toLowerM (trimM r.deviceId)) (toLowerM (trimM value))) ∧
    List.Sublist (filterRecords db "deviceId" value) db.records ∧
    (∀ r, r ∈ filterRecords db "deviceId" value ↔
      r ∈ db.records ∧
      strIncludes (toLowerM (trimM r.deviceId)) (toLowerM (trimM value)) = true) := by
  have hmain : filterRecords db "deviceId" value =
      db.records.filter (fun r =>
        strIncludes (toLowerM (trimM r.deviceId)) (toLowerM (trimM value))) := rfl
  refine ⟨hmain, ?_, fun r => ?_⟩
  · rw [hmain]
    exact List.filter_sublist _
  · rw [hmain]
    simp [List.mem_filter]

/-- Claim C7 (confirmed): searching with field `location` matches a record
exactly when the trimmed lower-cased query is a substring of the trimmed
lower-cased `region` or `country`.  Records in this code base carry no
`city` field, so these are all the location fields present. -/
theorem filterRecords_location_correct (db : DB) (value : String) :
    filterRecords db "location" value =
      db.records.filter (fun r =>
        strIncludes (toLowerM (trimM r.region)) (toLowerM (trimM value)) ||
        strIncludes (toLowerM (trimM r.country)) (toLowerM (trimM value))) ∧
    (∀ r, r ∈ filterRecords db "location" value ↔
      r ∈ db.records ∧
      (strIncludes (toLowerM (trimM r.region)) (toLowerM (trimM value)) = true ∨
       strIncludes (toLowerM (trimM r.country)) (toLowerM (trimM value)) = true)) := by
  have hmain : filterRecords db "location" value =
      db.records.filter (fun r =>
        strIncludes (toLowerM (trimM r.region)) (toLowerM (trimM value)) ||
        strIncludes (toLowerM (trimM r.country)) (toLowerM (trimM value))) := rfl
  refine ⟨hmain, fun r => ?_⟩
  rw [hmain]
  simp [List.mem_filter]

/-- Claim C10 (confirmed): a blank (empty or whitespace-only) query value
normalises to the empty needle, every candidate string contains the empty
substring, and so every field selector returns the entire record set. -/
theorem filterRecords_blank_query (db : DB) (field value : String)
    (h : trimM value = "") : filterRecords db field value = db.records := by
  have hne : toLowerM (trimM value) = "" := by rw [h]; rfl
  show db.records.filter (fun r =>
    if toLowerM field = "username" then
      strIncludes (toLowerM (norm r.username)) (toLowerM (trimM value))
    else if toLowerM field = "deviceid" then
      strIncludes (toLowerM (trimM r.deviceId)) (toLowerM (trimM value))
    else if toLowerM field = "deviceuser" then
      strIncludes (toLowerM (trimM r.deviceUser)) (toLowerM (trimM value))
    else if toLowerM field = "location" then
      strIncludes (toLowerM (trimM r.region)) (toLowerM (trimM value)) ||
      strIncludes (toLowerM (trimM r.country)) (toLowerM (trimM value))
    else
      strIncludes (toLowerM (norm r.username)) (toLowerM (trimM value)) ||
      strIncludes (toLowerM (trimM r.deviceUser)) (toLowerM (trimM value)) ||
      strIncludes (toLowerM (trimM r.deviceId)) (toLowerM (trimM value)) ||
      (strIncludes (toLowerM (trimM r.region)) (toLowerM (trimM value)) ||
       strIncludes (toLowerM (trimM r.country)) (toLowerM (trimM value)))) =
    db.records
  rw [List.filter_eq_self]
  intro r _
  rw [hne]
  split
  · exact strIncludes_empty_needle _
  · split
    · exact strIncludes_empty_needle _
    · split
      · exact strIncludes_empty_needle _
      · split
        · simp [strIncludes_empty_needle]
        · simp [strIncludes_empty_needle]

def c10db : DB :=
  ⟨[⟨"t", "u", "d", "c", "r", "m", none, none⟩,
    ⟨"t2", "u2", "d2", "c2", "r2", "", some "Name", none⟩], [("m", 0)]⟩

/-- Witness for C10: a whitespace-only `any`-field search returns the whole
record set. -/
theorem filterRecords_blank_query_witness :
    filterRecords c10db "any" "   " = c10db.records :=
  filterRecords_blank_query c10db "any" "   " (by rfl)

/-- Claim C5 (corrected): the intake validation rejects with 400 exactly when
`deviceUser` or `deviceId` is absent or the empty string **as given**
(JS truthiness, before trimming); no record is appended on that path.  The
claim's "empty after trimming" is refuted by the counterexample below. -/
theorem postIntake_validation (db : DB) (ts : String) (body : IntakePayload)
    (mode : Option String) (messageId : String)
    (hmode : toLowerM (mode.getD "") ≠ "logtext")
    (hbad : body.deviceUser.getD "" = "" ∨ body.deviceId.getD "" = "") :
    postIntake db ts body mode messageId = Except.error 400 := by
  unfold postIntake
  rw [if_neg hmode, if_pos]
  rcases hbad with h | h <;> simp [h]

/-- Witness for C5 (amended direction): an absent `deviceUser` is rejected
with 400. -/
theorem postIntake_validation_witness :
    postIntake emptyDB "t0" ⟨none, some "device1", none, none⟩ none "m1" =
      Except.error 400 :=
  postIntake_validation emptyDB "t0" ⟨none, some "device1", none, none⟩ none "m1"
    (by decide) (Or.inl rfl)

def c5body : IntakePayload := ⟨some " ", some "device1", none, none⟩

/-- Counterexample for C5 as stated: a whitespace-only `deviceUser` is empty
after trimming, yet the request is **not** rejected — a record (with
`deviceUser` trimmed to the empty string) is appended. -/
theorem postIntake_validation_counterexample :
    norm c5body.deviceUser = "" ∧
    (postIntake emptyDB "t0" c5body none "m1").toOption =
      some ⟨[⟨"t0", "", "device1", "", "", "m1", none, none⟩], [("m1", 0)]⟩ := by
  decide

/-- Claim C9 (confirmed): a successful `upsertUsernameFromModal` changes
neither the number of records, nor any creation-time field (`ts`,
`deviceUser`, `deviceId`, `country`, `region`, `messageId`) of any record,
nor the message index; only `username`/`discordId` may change.  (The
`TypeError` path, modelled by a `none` result, performs no save, so the
durable store is also unchanged there.) -/
theorem upsert_frame (db : DB) (messageId : String)
    (username discordIdOpt : Option String) (db' : DB)
    (h : upsertUsernameFromModal db messageId username discordIdOpt = some db') :
    db'.records.map frameFields = db.records.map frameFields ∧
    db'.records.length = db.records.length ∧
    db'.messageIndex = db.messageIndex := by
  cases hl : lookupKey db.messageIndex messageId with
  | none =>
    simp only [upsertUsernameFromModal, hl, Option.some.injEq] at h
    subst h
    exact ⟨rfl, rfl, rfl⟩
  | some idx =>
    simp only [upsertUsernameFromModal, hl] at h
    cases hr : db.records[idx]? with
    | none => rw [hr] at h; exact absurd h (by simp)
    | some base =>
      rw [hr] at h
      simp only [Option.some.injEq] at h
      subst h
      have hset : List.map frameFields
          (db.records.set idx
            (setIdentity (norm username) (norm discordIdOpt) base)) =
          List.map frameFields db.records := by
        rw [List.map_set, frameFields_setIdentity]
        apply list_set_self
        rw [List.getElem?_map, hr]
        rfl
      have hg : ∀ r : Record,
          frameFields (if r.deviceId ≠ "" ∧ r.deviceId = base.deviceId
            then setIdentity (norm username) (norm discordIdOpt) r else r) =
          frameFields r := by
        intro r
        split
        · exact frameFields_setIdentity _ _ r
        · rfl
      refine ⟨?_, ?_, rfl⟩
      · show List.map frameFields (List.map _ _) = _
        rw [List.map_map]
        exact (List.map_congr_left fun a _ => hg a).trans hset
      · show (List.map _ _).length = _
        simp [List.length_set]

def c9db : DB :=
  ⟨[⟨"t1", "u1", "d", "US", "CA", "m", none, none⟩,
    ⟨"t2", "u2", "d", "US", "NY", "n", none, none⟩], [("m", 0), ("n", 1)]⟩

def c9db' : DB :=
  ⟨[⟨"t1", "u1", "d", "US", "CA", "m", some "Bob", none⟩,
    ⟨"t2", "u2", "d", "US", "NY", "n", some "Bob", none⟩], [("m", 0), ("n", 1)]⟩

/-- Witness for C9 at a concrete store and submission. -/
theorem upsert_frame_witness :
    c9db'.records.map frameFields = c9db.records.map frameFields ∧
    c9db'.records.length = c9db.records.length ∧
    c9db'.messageIndex = c9db.messageIndex :=
  upsert_frame c9db "m" (some "Bob") none c9db' (by decide)

/-- Claim C1 (corrected): after a found identity submission whose target
record has a **non-empty** `deviceId`, every record sharing that
`deviceId` reports the submitted value.  The non-emptiness hypothesis is
forced by the counterexample below: the propagation loop requires
`r.deviceId` to be truthy, so the value is not copied to sibling records
when the shared `deviceId` is the empty string. -/
theorem upsert_propagation (db : DB) (messageId : String)
    (username discordIdOpt : Option String) (idx : Nat) (base : Record)
    (db' : DB)
    (hidx : lookupKey db.messageIndex messageId = some idx)
    (hbase : db.records[idx]? = some base)
    (hdev : base.deviceId ≠ "")
    (h : upsertUsernameFromModal db messageId username discordIdOpt = some db') :
    ∀ r ∈ db'.records, r.deviceId = base.deviceId →
      (norm username ≠ "" → r.username = some (norm username)) ∧
      (norm discordIdOpt ≠ "" → r.discordId = some (norm discordIdOpt)) := by
  simp only [upsertUsernameFromModal, hidx, hbase, Option.some.injEq] at h
  subst h
  intro r hr hdev'
  rcases List.mem_map.mp hr with ⟨x, hx, hgx⟩
  by_cases hc : x.deviceId ≠ "" ∧ x.deviceId = base.deviceId
  · rw [if_pos hc] at hgx
    subst hgx
    exact ⟨fun hu => setIdentity_username _ _ hu,
           fun hd => setIdentity_discordId _ _ hd⟩
  · rw [if_neg hc] at hgx
    subst hgx
    exact absurd ⟨by rw [hdev']; exact hdev, hdev'⟩ hc

def c1wdb : DB :=
  ⟨[⟨"t1", "u1", "d", "", "", "m", none, none⟩,
    ⟨"t2", "u2", "d", "", "", "", none, none⟩], [("m", 0)]⟩

def c1wdb' : DB :=
  ⟨[⟨"t1", "u1", "d", "", "", "m", some "Bob", none⟩,
    ⟨"t2", "u2", "d", "", "", "", some "Bob", none⟩], [("m", 0)]⟩

def c1wbase : Record := ⟨"t1", "u1", "d", "", "", "m", none, none⟩

def c1wsibling : Record := ⟨"t2", "u2", "d", "", "", "", some "Bob", none⟩

/-- Witness for C1 (amended): the sibling record sharing the non-empty
`deviceId` `"d"` reports the submitted username after the merge. -/
theorem upsert_propagation_witness :
    c1wsibling.username = some (norm (some "Bob")) :=
  ((upsert_propagation c1wdb "m" (some "Bob") none 0 c1wbase c1wdb'
      rfl rfl (by decide) (by decide))
    c1wsibling (by decide) rfl).1 (by decide)

def c1xdb : DB :=
  ⟨[⟨"t1", "u1", "", "", "", "m", none, none⟩,
    ⟨"t2", "u2", "", "", "", "", none, none⟩], [("m", 0)]⟩

/-- Counterexample for C1 as stated: the submission is found (index entry
`"m" ↦ 0`) and carries the non-empty trimmed username `"Bob"`, the second
record's `deviceId` equals the found record's `deviceId` (both empty), yet
after the call the second record's username is still `none`. -/
theorem upsert_propagation_counterexample :
    lookupKey c1xdb.messageIndex "m" = some 0 ∧
    c1xdb.records[0]? = some ⟨"t1", "u1", "", "", "", "m", none, none⟩ ∧
    norm (some "Bob") ≠ "" ∧
    (upsertUsernameFromModal c1xdb "m" (some "Bob") none).map
      (fun db => db.records.map fun r => (r.deviceId, r.username)) =
      some [("", some "Bob"), ("", none)] := by
  decide

theorem decodeRecord_encodeRecord (r : Record) :
    decodeRecord (encodeRecord r) = some r := by
  obtain ⟨ts, du, di, co, re, mi, un, dc⟩ := r
  cases un <;> cases dc <;> rfl

theorem decodeRecords_encode (rs : List Record) :
    decodeRecords (rs.map encodeRecord) = some rs := by
  induction rs with
  | nil => rfl
  | cons r rest ih =>
    simp [decodeRecords, decodeRecord_encodeRecord, ih]

theorem decodeIndex_encode (ms : List (String × Nat)) :
    decodeIndex (ms.map fun e => (e.1, Json.num (e.2 : Int))) = some ms := by
  induction ms with
  | nil => rfl
  | cons e rest ih =>
    obtain ⟨k, v⟩ := e
    have h0 : ¬ ((v : Int) < 0) := Int.not_lt.mpr (Int.natCast_nonneg v)
    simp [decodeIndex, asNat, h0, Int.toNat_ofNat, ih]

/-- Claim C4 (confirmed): serializing a store and deserializing it again
yields a structurally equal store.  `JSON.parse ∘ JSON.stringify` is the
identity on the JSON value `encodeDB db`, so the round trip is: the
default-filling of `loadDB` leaves the value untouched (both fields are
present and truthy), and reading the value back gives the original store. -/
theorem save_load_roundtrip (db : DB) :
    loadFromJson (encodeDB db) = encodeDB db ∧
    decodeDB (encodeDB db) = some db := by
  constructor
  · rfl
  · obtain ⟨recs, idx⟩ := db
    simp [decodeDB, encodeDB, lookupKey, decodeRecords_encode, decodeIndex_encode]

theorem lookup_defaultField_self (fs : List (String × Json)) (k : String)
    (d : Json) (h : jsTruthyO (lookupKey fs k) = false) :
    lookupKey (defaultField fs k d) k = some d := by
  cases hl : lookupKey fs k with
  | none =>
    simp only [defaultField, hl]
    exact lookupKey_setKey_self fs k d
  | some v =>
    have hv : jsTruthy v = false := by simpa [jsTruthyO, hl] using h
    simp only [defaultField, hl, hv, Bool.false_eq_true, if_false]
    exact lookupKey_setKey_self fs k d

theorem lookup_defaultField_other (fs : List (String × Json)) (k k' : String)
    (d : Json) (h : k' ≠ k) :
    lookupKey (defaultField fs k d) k' = lookupKey fs k' := by
  cases hl : lookupKey fs k with
  | none =>
    simp only [defaultField, hl]
    exact lookupKey_setKey_ne fs k k' d h
  | some v =>
    by_cases hv : jsTruthy v
    · simp [defaultField, hl, hv]
    · simp only [defaultField, hl, hv, Bool.false_eq_true, if_false]
      exact lookupKey_setKey_ne fs k k' d h

/-- Claim C6 (confirmed): `loadDB` is a total function of the raw blob
contents (the `try`/`catch` means it never throws); an unparseable blob
gives the empty store, a missing or falsy `records`/`messageIndex` member
is default-filled with `[]`/`{}` respectively, and the empty blob (mapped
to `'{}'` by `raw || '{}'`) gives the empty store. -/
theorem loadDB_corrupt_fallback (raw : String) :
    (jsonParse (if raw = "" then "\x7b\x7d" else raw) = none →
       loadDB raw = emptyStoreJson) ∧
    (∀ w, jsonParse (if raw = "" then "\x7b\x7d" else raw) = some w →
       (jsTruthyO (getField w "records") = false →
          getField (loadDB raw) "records" = some (Json.arr [])) ∧
       (jsTruthyO (getField w "messageIndex") = false →
          getField (loadDB raw) "messageIndex" = some (Json.obj []))) ∧
    (raw = "" → loadDB raw = emptyStoreJson) := by
  refine ⟨?_, ?_, ?_⟩
  · intro hp
    simp [loadDB, hp]
  · intro w hp
    constructor
    · intro ht
      cases w
      case obj fs =>
        simp only [getField] at ht
        simp only [loadDB, hp, loadFromJson, getField]
        rw [lookup_defaultField_other _ _ _ _ (by decide)]
        exact lookup_defaultField_self _ _ _ ht
      all_goals
        simp [loadDB, hp, loadFromJson, emptyStoreJson, getField, lookupKey]
    · intro ht
      cases w
      case obj fs =>
        simp only [getField] at ht
        simp only [loadDB, hp, loadFromJson, getField]
        apply lookup_defaultField_self
        rwa [lookup_defaultField_other _ _ _ _ (by decide)]
      all_goals
        simp [loadDB, hp, loadFromJson, emptyStoreJson, getField, lookupKey]
  · intro h0
    subst h0
    rfl

/-- Witness for C6: an unterminated object is invalid JSON and falls back
to the empty store; so does the empty blob. -/
theorem loadDB_corrupt_fallback_witness :
    loadDB "\x7b" = emptyStoreJson ∧ loadDB "" = emptyStoreJson :=
  ⟨(loadDB_corrupt_fallback "\x7b").1 (by rfl),
   (loadDB_corrupt_fallback "").2.2 rfl⟩

/-!
The index invariant for append-only stores (C3).
-/

/-- The C3 invariant: every record with a non-empty card reference is found
by the index at its own position, no index entry points past the end of
the sequence, and index keys are unique (each reference has exactly one
entry). -/
def indexConsistent (db : DB) : Prop :=
  (∀ i r, db.records[i]? = some r → r.messageId ≠ "" →
     lookupKey db.messageIndex r.messageId = some i) ∧
  (∀ e ∈ db.messageIndex, e.2 < db.records.length) ∧
  (db.messageIndex.map Prod.fst).Nodup

/-- Freshness of `mid`: it is neither an index key nor a stored
card reference. -/
def midFresh (db : DB) (mid : String) : Prop :=
  lookupKey db.messageIndex mid = none ∧ ∀ r ∈ db.records, r.messageId ≠ mid

theorem recordIntake_shape (db : DB) (ts : String) (p : IntakePayload)
    (mid : String) :
    (recordIntakeAndLinkMessage db ts p mid).1 =
      ⟨db.records ++ [(recordIntakeAndLinkMessage db ts p mid).2],
       if mid ≠ "" then setKey db.messageIndex mid db.records.length
       else db.messageIndex⟩ := by
  by_cases h : mid = "" <;> simp [recordIntakeAndLinkMessage, h]

theorem indexConsistent_append (db : DB) (r0 : Record) (mid : String)
    (hinv : indexConsistent db) (hr0 : r0.messageId = trimM mid)
    (htrim : trimM mid = mid) (hfresh : mid = "" ∨ midFresh db mid) :
    indexConsistent
      ⟨db.records ++ [r0],
       if mid ≠ "" then setKey db.messageIndex mid db.records.length
       else db.messageIndex⟩ := by
  obtain ⟨h1, h2, h3⟩ := hinv
  by_cases hmid : mid = ""
  · rw [if_neg (by simp [hmid])]
    refine ⟨?_, ?_, h3⟩
    · intro i r hir hne
      by_cases hi : i < db.records.length
      · rw [List.getElem?_append, if_pos hi] at hir
        exact h1 i r hir hne
      · rw [List.getElem?_append, if_neg hi] at hir
        cases hd : i - db.records.length with
        | zero =>
          rw [hd] at hir
          simp only [List.getElem?_cons_zero, Option.some.injEq] at hir
          subst hir
          exact absurd (hr0.trans (by rw [hmid]; rfl)) hne
        | succ n =>
          rw [hd] at hir
          simp at hir
    · intro e he
      have := h2 e he
      simp only [List.length_append, List.length_cons, List.length_nil]
      omega
  · rcases hfresh with h | hfr
    · exact absurd h hmid
    obtain ⟨hfl, hfr2⟩ := hfr
    rw [if_pos hmid]
    refine ⟨?_, ?_, nodup_keys_setKey _ _ _ h3⟩
    · intro i r hir hne
      by_cases hi : i < db.records.length
      · rw [List.getElem?_append, if_pos hi] at hir
        have hrmem : r ∈ db.records := List.getElem?_mem hir
        rw [lookupKey_setKey_ne _ _ _ _ (hfr2 r hrmem)]
        exact h1 i r hir hne
      · rw [List.getElem?_append, if_neg hi] at hir
        cases hd : i - db.records.length with
        | zero =>
          rw [hd] at hir
          simp only [List.getElem?_cons_zero, Option.some.injEq] at hir
          subst hir
          have hieq : i = db.records.length := by omega
          rw [hr0, htrim, lookupKey_setKey_self, hieq]
        | succ n =>
          rw [hd] at hir
          simp at hir
    · intro e he
      rcases mem_setKey he with h' | h'
      · have := h2 e h'
        simp only [List.length_append, List.length_cons, List.length_nil]
        omega
      · subst h'
        simp only [List.length_append, List.length_cons, List.length_nil]
        omega

theorem indexConsistent_step (db : DB) (ts : String) (p : IntakePayload)
    (mid : String) (hinv : indexConsistent db) (htrim : trimM mid = mid)
    (hfresh : mid = "" ∨ midFresh db mid) :
    indexConsistent (recordIntakeAndLinkMessage db ts p mid).1 := by
  rw [recordIntake_shape]
  exact indexConsistent_append db _ mid hinv rfl htrim hfresh

theorem midFresh_step (db : DB) (ts : String) (p : IntakePayload)
    (mid m : String) (hm : m ≠ mid) (htrim : trimM mid = mid)
    (hfr : midFresh db m) :
    midFresh (recordIntakeAndLinkMessage db ts p mid).1 m := by
  rw [recordIntake_shape]
  obtain ⟨hl, hr⟩ := hfr
  constructor
  · by_cases hmid : mid = ""
    · rw [if_neg (by simp [hmid])]
      exact hl
    · rw [if_pos hmid, lookupKey_setKey_ne _ _ _ _ hm]
      exact hl
  · intro r hmem
    rcases List.mem_append.mp hmem with h' | h'
    · exact hr r h'
    · simp only [List.mem_cons, List.not_mem_nil, or_false] at h'
      subst h'
      show (recordIntakeAndLinkMessage db ts p mid).2.messageId ≠ m
      rw [show (recordIntakeAndLinkMessage db ts p mid).2.messageId = trimM mid
            from rfl,
          htrim]
      exact fun he => hm he.symm

theorem indexConsistent_fold (xs : List (String × IntakePayload × String)) :
    ∀ db : DB, indexConsistent db →
    (∀ x ∈ xs, trimM x.2.2 = x.2.2) →
    (xs.map fun x => x.2.2).Pairwise (· ≠ ·) →
    (∀ x ∈ xs, x.2.2 = "" ∨ midFresh db x.2.2) →
    indexConsistent
      (xs.foldl (fun db x => (recordIntakeAndLinkMessage db x.1 x.2.1 x.2.2).1)
        db) := by
  induction xs with
  | nil =>
    intro db h _ _ _
    simpa using h
  | cons x rest ih =>
    intro db hinv htrim hpair hfresh
    obtain ⟨t, p, mid⟩ := x
    simp only [List.foldl_cons]
    rw [List.map_cons, List.pairwise_cons] at hpair
    have hx := hfresh _ (List.mem_cons_self _ _)
    have htm := htrim _ (List.mem_cons_self _ _)
    have hinv' := indexConsistent_step db t p mid hinv htm hx
    apply ih _ hinv' (fun y hy => htrim y (List.mem_cons_of_mem _ hy)) hpair.2
    intro y hy
    rcases hfresh y (List.mem_cons_of_mem _ hy) with h0 | hfr
    · exact Or.inl h0
    · refine Or.inr (midFresh_step db t p mid y.2.2 ?_ htm hfr)
      exact fun he => (hpair.1 _ (List.mem_map_of_mem _ hy)) he.symm

/-- Claim C3 (corrected): for stores built by appends whose supplied message
ids are pairwise distinct and carry no surrounding whitespace (so the
stored reference equals the index key), every record with a non-empty
card reference has exactly one index entry (keys are unique) pointing at
its own position, and no entry points past the end of the sequence.  Both
added hypotheses are forced by the counterexample below. -/
theorem appendMany_index_invariant (xs : List (String × IntakePayload × String))
    (htrim : ∀ x ∈ xs, trimM x.2.2 = x.2.2)
    (hdist : (xs.map fun x => x.2.2).Pairwise (· ≠ ·)) :
    (∀ i r, (appendMany xs).records[i]? = some r → r.messageId ≠ "" →
       lookupKey (appendMany xs).messageIndex r.messageId = some i) ∧
    (∀ e ∈ (appendMany xs).messageIndex, e.2 < (appendMany xs).records.length) ∧
    ((appendMany xs).messageIndex.map Prod.fst).Nodup :=
  indexConsistent_fold xs emptyDB
    ⟨fun i r h _ => by simp [emptyDB] at h,
     fun e he => by simp [emptyDB] at he,
     by simp [emptyDB]⟩
    htrim hdist
    (fun x _ => Or.inr ⟨rfl, fun r h => by simp [emptyDB] at h⟩)

def c3wxs : List (String × IntakePayload × String) :=
  [("t1", ⟨some "a", some "d1", none, none⟩, "m1"),
   ("t2", ⟨some "b", some "d2", none, none⟩, "m2")]

/-- Witness for C3 (amended): two appends with distinct clean message ids
index the second record at position 1. -/
theorem appendMany_index_invariant_witness :
    lookupKey (appendMany c3wxs).messageIndex "m2" = some 1 :=
  (appendMany_index_invariant c3wxs (by decide) (by decide)).1 1
    ⟨"t2", "b", "d2", "", "", "m2", none, none⟩ (by decide) (by decide)

def c3xdb : DB :=
  appendMany [("t1", ⟨some "a", some "d", none, none⟩, "m"),
              ("t2", ⟨some "b", some "d", none, none⟩, "m")]

def c3ydb : DB :=
  appendMany [("t3", ⟨some "a", some "d", none, none⟩, " x ")]

/-- Counterexample for C3 as stated: two appends may reuse the message id
`"m"`, after which the record at position 0 has the non-empty reference
`"m"` whose (single) index entry points at position 1, not 0; and an
append with the untrimmed id `" x "` stores the reference `"x"` while
indexing under the key `" x "`, so the stored reference has no entry of
its own. -/
theorem appendMany_index_invariant_counterexample :
    (c3xdb.records.map fun r => r.messageId) = ["m", "m"] ∧
    c3xdb.messageIndex = [("m", 1)] ∧
    lookupKey c3xdb.messageIndex "m" ≠ some 0 ∧
    (c3ydb.records.map fun r => r.messageId) = ["x"] ∧
    c3ydb.messageIndex = [(" x ", 0)] ∧
    lookupKey c3ydb.messageIndex "x" = none := by
  decide

/-!
Model sanity checks: concrete evaluations of the embedded definitions,
matching hand-traced runs of the JavaScript source.
-/

example : (jsonParse "\x7b").isNone = true := by rfl
example : (jsonParse "not json").isNone = true := by rfl
example : loadDB "" = emptyStoreJson := by rfl
example : loadDB "\x7b\x7d" = emptyStoreJson := by rfl
example : loadDB "  \x7b \"records\" : 0 \x7d " =
    Json.obj [("records", Json.arr []), ("messageIndex", Json.obj [])] := by rfl
example : jsonParse "\x7b\"a\": [1, -2, \"x\\n\"], \"b\": null\x7d" =
    some (Json.obj [("a", Json.arr [Json.num 1, Json.num (-2), Json.str "x\n"]),
                    ("b", Json.null)]) := by rfl
example : jsonParse "\x7b\"a\":1,\"a\":2\x7d" =
    some (Json.obj [("a", Json.num 2)]) := by rfl
example : jsonParse "01" = none := by rfl
example : jsonParse "true " = some (Json.bool true) := by rfl
example :
    decodeDB (encodeDB ⟨[⟨"t", "u", "d", "c", "r", "m", some "U", none⟩], [("m", 0)]⟩) =
    some ⟨[⟨"t", "u", "d", "c", "r", "m", some "U", none⟩], [("m", 0)]⟩ := by rfl
example :
    loadFromJson (encodeDB ⟨[], []⟩) = encodeDB ⟨[], []⟩ := by rfl

example : trimM "  a b  " = "a b" := by decide
example : toLowerM "deviceId" = "deviceid" := by decide
example : strIncludes "hello" "ell" = true := by decide
example : strIncludes "hello" "" = true := by decide
example : norm (some "  x ") = "x" := by decide
example :
    (recordIntakeAndLinkMessage emptyDB "t"
      ⟨some "u", some "d", none, none⟩ "m").1.messageIndex = [("m", 0)] := by decide
example :
    (upsertUsernameFromModal
      ⟨[⟨"t", "u", "d", "", "", "m", none, none⟩,
        ⟨"t2", "u2", "d", "", "", "", none, none⟩], [("m", 0)]⟩
      "m" (some " Bob ") none).map (fun db => db.records.map (·.username)) =
    some [some "Bob", some "Bob"] := by decide
example :
    (upsertUsernameFromModal
      ⟨[⟨"t", "u", "", "", "", "m", none, none⟩,
        ⟨"t2", "u2", "", "", "", "", none, none⟩], [("m", 0)]⟩
      "m" (some "Bob") none).map (fun db => db.records.map (·.username)) =
    some [some "Bob", none] := by decide
example : truncateList ["a", "b", "c"] 2 = ["a", "b", "… (+1 more)"] := by decide
example :
    filterRecords ⟨[⟨"t", "u", "AbC", "", "", "", none, none⟩], []⟩
      "deviceId" " bc " = [⟨"t", "u", "AbC", "", "", "", none, none⟩] := by decide
